import Mathlib

/-!
Verification of the brainfuck interpreter in src/brainfuck.py.

The development embeds the two components of the program — the growable,
zero-filled Tape and the BfTuringMachine — as executable Lean definitions,
and settles the frozen claims about them.  Machine bytes are Nat values
with explicit mod 256 where the source wraps; fallible operations return
Except; the potentially nonterminating bracket scan is modelled both by a
fuel-indexed faithful copy of the iterator loop (scanFuel) and by a bounded
scan over the finite storage list (scanGo), whose none result stands for
the iterator loop running forever over the zero-fill region.
-/

namespace Brainfuck

/-- Error kinds the interpreter can raise: IndexError from the Tape ptr
setter (line 29), BrainfuckSyntaxError with its message (lines 111, 115),
and KeyError from the dispatch dict lookup (line 131). -/
inductive BfError where
  | indexError
  | syntaxError (msg : String)
  | keyError
deriving DecidableEq, Repr

/-- One pass of the growth loop in the ptr setter (lines 31-32):
while len(storage) <= n, extend storage with len(storage)+1 zero bytes.
The fuel argument bounds the iterations; n+1 passes always suffice
because every pass grows the list by at least one element. -/
def growLoop : Nat → List Nat → Nat → List Nat
  | 0, s, _ => s
  | fuel + 1, s, n =>
      if s.length ≤ n then growLoop fuel (s ++ List.replicate (s.length + 1) 0) n
      else s

/-- Grow storage until its length exceeds n, as the ptr setter does. -/
def growStorage (s : List Nat) (n : Nat) : List Nat :=
  growLoop (n + 1) s n

/-- The Tape of lines 6-46: a growable byte buffer with a cursor.
Storage holds the byte values; ptr is the cursor. -/
structure Tape where
  storage : List Nat
  ptr : Nat
deriving DecidableEq, Repr

/-- Tape.__init__ (lines 8-10): bytearray(initial_tape_len) zero bytes,
ptr 0.  The source default for initial_tape_len is 4096. -/
def Tape.init (len : Nat) : Tape :=
  ⟨List.replicate len 0, 0⟩

/-- The ptr setter (lines 25-32): reject negative targets with IndexError,
otherwise set the cursor and grow storage until it is long enough. -/
def Tape.setPtr (t : Tape) (n : Int) : Except BfError Tape :=
  if n < 0 then .error .indexError
  else .ok ⟨growStorage t.storage n.toNat, n.toNat⟩

/-- The cur_elem getter (lines 34-37): the byte under the cursor.  The
setter invariant keeps ptr inside storage, so the 0 default of getD is
never what a read of a live Tape returns unless the stored byte is 0. -/
def Tape.curElem (t : Tape) : Nat :=
  t.storage.getD t.ptr 0

/-- The cur_elem setter (lines 39-41): storage[ptr] = elem % 256. -/
def Tape.setCurElem (t : Tape) (v : Int) : Tape :=
  ⟨t.storage.set t.ptr (v % 256).toNat, t.ptr⟩

/-- Tape.load (lines 43-46): replace storage with the data and set ptr to
0 through the setter, which grows an empty storage to one zero byte. -/
def Tape.load (_t : Tape) (data : List Nat) : Tape :=
  ⟨growStorage data 0, 0⟩

/-- Tape.__next__ (lines 15-19): return the byte under the cursor and step
the cursor forward through the setter (which grows the storage). -/
def Tape.stepNext (t : Tape) : Nat × Tape :=
  (t.curElem, ⟨growStorage t.storage (t.ptr + 1), t.ptr + 1⟩)

/-- The for-loop of _left_bracket (lines 95-109) copied step by step over
the Tape iterator, indexed by fuel: read a byte with __next__, skip bytes
that are not brackets, count nested brackets, and on the matching close
rewind the cursor by one (line 108).  The iterator never ends, so a none
result means the loop is still running when the fuel runs out. -/
def scanFuel : Nat → Tape → Nat → Option (Nat × Tape)
  | 0, _, _ => none
  | fuel + 1, t, nested =>
      let (cmd, t') := t.stepNext
      if cmd ≠ 91 ∧ cmd ≠ 93 then scanFuel fuel t' nested
      else if cmd = 91 then scanFuel fuel t' (nested + 1)
      else if nested ≠ 0 then scanFuel fuel t' (nested - 1)
      else some (t.ptr, ⟨t'.storage, t.ptr⟩)

/-- The same scan over the finite storage list: every byte at an index
at or past the length is 0 (the zero-fill), is skipped by the loop, and
can never match, so the scan past the end is the loop running forever.
scanGo stops with none there; fuel only drives the recursion. -/
def scanGo : Nat → List Nat → Nat → Nat → Option Nat
  | 0, _, _, _ => none
  | fuel + 1, s, p, nested =>
      if p < s.length then
        let cmd := s.getD p 0
        if cmd ≠ 91 ∧ cmd ≠ 93 then scanGo fuel s (p + 1) nested
        else if cmd = 91 then scanGo fuel s (p + 1) (nested + 1)
        else if nested ≠ 0 then scanGo fuel s (p + 1) (nested - 1)
        else some p
      else none

/-- Find the matching close bracket from position p with nesting counter
nested: the position of the matching 93 byte, or none when the iterator
loop of the source would run forever.  s.length + 1 fuel reaches the end
of the list from any start position. -/
def scanMatch (s : List Nat) (p : Nat) (nested : Nat) : Option Nat :=
  scanGo (s.length + 1) s p nested

/-- The machine state of BfTuringMachine (lines 51-65) together with the
two byte streams the instruction handlers touch: input models sys.stdin
(a list of pending byte values), output collects the bytes written to
sys.stdout.  The bracket stack keeps its top at the list head. -/
structure MState where
  memory : Tape
  program : Tape
  bracketStack : List Nat
  input : List Nat
  output : List Nat
deriving DecidableEq, Repr

/-- Result of one instruction handler: a new state, an error, or the
handler running forever (only the bracket scan of _left_bracket can). -/
inductive ExecRes where
  | ok (st : MState)
  | err (e : BfError)
  | diverge
deriving DecidableEq, Repr

/-- _shift_data_ptr (lines 67-69): memory.ptr += n through the setter. -/
def shiftDataPtr (st : MState) (n : Int) : ExecRes :=
  match st.memory.setPtr ((st.memory.ptr : Int) + n) with
  | .ok m => .ok { st with memory := m }
  | .error e => .err e

/-- Adds n to the byte at the data pointer, _add_to_current_byte applied
to a bare Tape (lines 71-73): cur_elem += n through the setter. -/
def addToCur (t : Tape) (n : Int) : Tape :=
  t.setCurElem ((t.curElem : Int) + n)

/-- _add_to_current_byte (lines 71-73) on the machine state. -/
def addToCurrentByte (st : MState) (n : Int) : ExecRes :=
  .ok { st with memory := addToCur st.memory n }

/-- _current_byte_out (lines 75-77): write the current memory byte to the
output stream. -/
def currentByteOut (st : MState) : ExecRes :=
  .ok { st with output := st.output ++ [st.memory.curElem] }

/-- _read_byte_and_store (lines 79-85): read one byte from the input
stream and store it through the cur_elem setter; at end of input store
0. -/
def readByteAndStore (st : MState) : ExecRes :=
  match st.input with
  | c :: rest => .ok { st with memory := st.memory.setCurElem (c : Int), input := rest }
  | [] => .ok { st with memory := st.memory.setCurElem 0 }

/-- _left_bracket (lines 87-111): push the program cursor; with a nonzero
memory byte return at once.  With a zero byte pop the pushed position,
consume the open bracket with __next__ and scan forward for the matching
close.  On success the scan has consumed the close, so the cursor rewinds
to the close bracket position j; the successive cursor steps of the scan
grow the storage with the same rule as one growth to the final target, so
the storage is growStorage to j + 1.  When no matching close exists in
the storage, the iterator loop runs forever (the raise on line 111 is
after a loop that never ends), which diverge records. -/
def leftBracket (st : MState) : ExecRes :=
  let stack1 := st.program.ptr :: st.bracketStack
  if st.memory.curElem ≠ 0 then .ok { st with bracketStack := stack1 }
  else
    let stack2 := stack1.tail
    match scanMatch st.program.storage (st.program.ptr + 1) 0 with
    | some j =>
        .ok { st with bracketStack := stack2,
                      program := ⟨growStorage st.program.storage (j + 1), j⟩ }
    | none => .diverge

/-- _right_bracket (lines 113-119): with an empty bracket stack raise the
syntax error of line 115; with a zero memory byte pop the stack and go
on; otherwise set the program cursor to the stack top (not popping). -/
def rightBracket (st : MState) : ExecRes :=
  match st.bracketStack with
  | [] => .err (.syntaxError "Unmatched ]")
  | t :: _ =>
      if st.memory.curElem = 0 then .ok { st with bracketStack := st.bracketStack.tail }
      else
        match st.program.setPtr (t : Int) with
        | .ok p => .ok { st with program := p }
        | .error e => .err e

/-- The dispatch dict lookup and call of line 131: the byte under the
program cursor selects the handler; any other byte value would be a
KeyError from the dict. -/
def execInstr (st : MState) : ExecRes :=
  match st.program.curElem with
  | 62 => shiftDataPtr st 1
  | 60 => shiftDataPtr st (-1)
  | 43 => addToCurrentByte st 1
  | 45 => addToCurrentByte st (-1)
  | 46 => currentByteOut st
  | 44 => readByteAndStore st
  | 91 => leftBracket st
  | 93 => rightBracket st
  | _ => .err .keyError

/-- The program.ptr += 1 of line 132 after a handler returns. -/
def incProg (st : MState) : MState :=
  { st with program := ⟨growStorage st.program.storage (st.program.ptr + 1),
                        st.program.ptr + 1⟩ }

/-- One iteration of the dispatch loop body (lines 131-132): run the
handler for the current byte, then advance the program cursor. -/
def dispatchStep (st : MState) : ExecRes :=
  match execInstr st with
  | .ok st' => .ok (incProg st')
  | r => r

/-- Result of running the dispatch loop with bounded fuel. -/
inductive RunRes where
  | halted (st : MState)
  | err (e : BfError)
  | diverge
  | fuelOut
deriving DecidableEq, Repr

/-- start_program (lines 129-132): while the byte under the program
cursor is nonzero, dispatch it and advance the cursor by one. -/
def run : Nat → MState → RunRes
  | 0, _ => .fuelOut
  | fuel + 1, st =>
      if st.program.curElem = 0 then .halted st
      else
        match execInstr st with
        | .ok st' => run fuel (incProg st')
        | .err e => .err e
        | .diverge => .diverge

/-- The eight instruction characters, the keys of the dispatch dict. -/
def bfCmdChars : List Char := ['>', '<', '+', '-', '.', ',', '[', ']']

/-- load_program (lines 121-127): keep exactly the characters of the
source that are dispatch-dict keys, in order, turn them into bytes and
load them into the program tape. -/
def loadProgram (st : MState) (src : List Char) : MState :=
  { st with program := st.program.load ((src.filter (· ∈ bfCmdChars)).map Char.toNat) }

/-- BfTuringMachine.__init__ (lines 52-65) together with a pending input
stream: two default Tapes of 4096 zero bytes and an empty bracket
stack. -/
def initMachine (input : List Nat) : MState :=
  ⟨Tape.init 4096, Tape.init 4096, [], input, []⟩

/-- A fresh machine with the given source loaded and input pending. -/
def mkMachine (src : List Char) (input : List Nat) : MState :=
  loadProgram (initMachine input) src

/-- The observable part of a successful handler step: program cursor,
bracket stack, memory tape and output stream. -/
def stepView : ExecRes → Option (Nat × List Nat × Tape × List Nat)
  | .ok st => some (st.program.ptr, st.bracketStack, st.memory, st.output)
  | _ => none

/-- The output stream of a halted run. -/
def runOutput : RunRes → Option (List Nat)
  | .halted st => some st.output
  | _ => none

/-- The byte value extracted from a successful setPtr result. -/
def curElemAfter : Except BfError Tape → Option Nat
  | .ok t => some t.curElem
  | .error _ => none

/-- Bracket weight of a byte: open bracket 1, close bracket -1, else 0. -/
def bal (c : Nat) : Int :=
  if c = 91 then 1 else if c = 93 then -1 else 0

/-- Sum of the bracket weights of the k bytes starting at index a. -/
def balsumK (s : List Nat) : Nat → Nat → Int
  | _, 0 => 0
  | a, k + 1 => bal (s.getD a 0) + balsumK s (a + 1) k

/-- Position j holds the close bracket matching the open bracket at
position p: the running bracket balance of the bytes after p reaches -1
for the first time exactly at j.  This is the standard nesting condition:
close brackets of nested loops keep the running balance at 0 or more. -/
def matchingClose (s : List Nat) (p j : Nat) : Prop :=
  p < j ∧ balsumK s (p + 1) (j - p) = -1 ∧
    ∀ q, q < j → p < q → 0 ≤ balsumK s (p + 1) (q - p)

instance (s : List Nat) (p j : Nat) : Decidable (matchingClose s p j) := by
  unfold matchingClose
  infer_instance

/-- Every byte the program tape can hold after loading: one of the eight
instruction bytes or the zero fill. -/
def cmdBytes : List Nat := [62, 60, 43, 45, 46, 44, 91, 93]

/-- All bytes of a program storage are instruction bytes or zero. -/
def goodProg (s : List Nat) : Prop :=
  ∀ b ∈ s, b ∈ cmdBytes ∨ b = 0

/-- The Tape setter invariant: the cursor is inside the storage. -/
def tapeInv (t : Tape) : Prop :=
  t.ptr < t.storage.length

/-- The sequence of plus and minus instructions of claim C6, applied to
one cell: true stands for plus (add 1), false for minus (add -1), the
arguments the dispatch dict passes to _add_to_current_byte. -/
def applyPM (t : Tape) (ops : List Bool) : Tape :=
  ops.foldl (fun acc op => addToCur acc (if op then 1 else -1)) t

instance (t : Tape) : Decidable (tapeInv t) := by
  unfold tapeInv
  infer_instance

instance (s : List Nat) : Decidable (goodProg s) := by
  unfold goodProg
  infer_instance

theorem getD_replicate_zero (k i : Nat) : (List.replicate k 0).getD i 0 = 0 := by
  induction k generalizing i with
  | zero => simp [List.getD]
  | succ k ih =>
      cases i with
      | zero => simp [List.replicate]
      | succ i => simp [List.replicate, ih i]

theorem getD_append_zeros (s : List Nat) (k i : Nat) :
    (s ++ List.replicate k 0).getD i 0 = s.getD i 0 := by
  induction s generalizing i with
  | nil => simp [getD_replicate_zero k i]
  | cons a t ih =>
      cases i with
      | zero => simp
      | succ i => simpa using ih i

/-- Every pass of the growth loop appends zero bytes only. -/
theorem growLoop_append (fuel : Nat) : ∀ (s : List Nat) (n : Nat),
    ∃ k, growLoop fuel s n = s ++ List.replicate k 0 := by
  induction fuel with
  | zero => intro s n; exact ⟨0, by simp [growLoop]⟩
  | succ fuel ih =>
      intro s n
      by_cases h : s.length ≤ n
      · obtain ⟨k, hk⟩ := ih (s ++ List.replicate (s.length + 1) 0) n
        refine ⟨s.length + 1 + k, ?_⟩
        simp only [growLoop, if_pos h]
        rw [hk, List.append_assoc, ← List.replicate_add]
      · exact ⟨0, by simp [growLoop, h]⟩

/-- Growing the storage appends zero bytes only. -/
theorem growStorage_append (s : List Nat) (n : Nat) :
    ∃ k, growStorage s n = s ++ List.replicate k 0 :=
  growLoop_append (n + 1) s n

/-- Growth changes no byte a read can see. -/
theorem growStorage_getD (s : List Nat) (n i : Nat) :
    (growStorage s n).getD i 0 = s.getD i 0 := by
  obtain ⟨k, hk⟩ := growStorage_append s n
  rw [hk, getD_append_zeros]

theorem growLoop_length (fuel : Nat) : ∀ (s : List Nat) (n : Nat),
    n < s.length + fuel → n < (growLoop fuel s n).length := by
  induction fuel with
  | zero => intro s n h; simpa [growLoop] using h
  | succ fuel ih =>
      intro s n h
      by_cases hle : s.length ≤ n
      · have h2 : n < (s ++ List.replicate (s.length + 1) 0).length + fuel := by
          simp; omega
        simpa [growLoop, hle] using ih _ n h2
      · simpa [growLoop, hle] using by omega

/-- The n + 1 passes of growStorage always make the storage long enough:
this is the setter invariant, the cursor ends inside the storage. -/
theorem growStorage_length (s : List Nat) (n : Nat) :
    n < (growStorage s n).length :=
  growLoop_length (n + 1) s n (by omega)

/-- Writing through the cur_elem setter stores the value mod 256. -/
theorem setCurElem_curElem (t : Tape) (v : Int) (h : tapeInv t) :
    (t.setCurElem v).curElem = (v % 256).toNat := by
  unfold Tape.setCurElem Tape.curElem
  rw [List.getD_eq_getElem _ _ (by simpa [tapeInv] using h)]
  simp [List.getElem_set_self]

theorem setCurElem_inv (t : Tape) (v : Int) (h : tapeInv t) :
    tapeInv (t.setCurElem v) := by
  simpa [tapeInv, Tape.setCurElem] using h

theorem setCurElem_lt (t : Tape) (v : Int) (h : tapeInv t) :
    (t.setCurElem v).curElem < 256 := by
  rw [setCurElem_curElem t v h]
  omega

/-- The iterator scan makes no progress over a tape that is all zeros
from the cursor on: it never returns, whatever the fuel.  This is the
loop of lines 95-109 running forever over the zero-fill region. -/
theorem scanFuel_none (fuel : Nat) : ∀ (t : Tape) (nested : Nat),
    (∀ i, t.ptr ≤ i → t.storage.getD i 0 = 0) → scanFuel fuel t nested = none := by
  induction fuel with
  | zero => intro t nested _; rfl
  | succ fuel ih =>
      intro t nested h
      have hcur : t.curElem = 0 := h t.ptr (Nat.le_refl _)
      have h' : ∀ i, t.ptr + 1 ≤ i →
          (growStorage t.storage (t.ptr + 1)).getD i 0 = 0 := by
        intro i hi
        rw [growStorage_getD]
        exact h i (by omega)
      simp only [scanFuel, Tape.stepNext, hcur]
      norm_num
      exact ih _ nested h'

/-- Splitting the last byte off a balance sum. -/
theorem balsumK_succ_back (s : List Nat) (k : Nat) : ∀ (a : Nat),
    balsumK s a (k + 1) = balsumK s a k + bal (s.getD (a + k) 0) := by
  induction k with
  | zero => intro a; simp [balsumK]
  | succ k ih =>
      intro a
      have h1 : balsumK s a (k + 1 + 1) = bal (s.getD a 0) + balsumK s (a + 1) (k + 1) := rfl
      rw [h1, ih (a + 1)]
      have h2 : balsumK s a (k + 1) = bal (s.getD a 0) + balsumK s (a + 1) k := rfl
      rw [h2]
      have h3 : a + 1 + k = a + (k + 1) := by omega
      rw [h3]
      ring

theorem neg_one_le_bal (c : Nat) : -1 ≤ bal c := by
  unfold bal
  split
  · omega
  · split
    · omega
    · omega

theorem bal_le_of_close (c : Nat) (h : bal c ≤ -1) : c = 93 := by
  unfold bal at h
  split at h
  · omega
  · split at h
    · assumption
    · omega

/-- Unfolding of one scan step inside the storage. -/
theorem scanGo_succ (fuel : Nat) (s : List Nat) (p nested : Nat) (h : p < s.length) :
    scanGo (fuel + 1) s p nested =
      (if s.getD p 0 ≠ 91 ∧ s.getD p 0 ≠ 93 then scanGo fuel s (p + 1) nested
       else if s.getD p 0 = 91 then scanGo fuel s (p + 1) (nested + 1)
       else if nested ≠ 0 then scanGo fuel s (p + 1) (nested - 1)
       else some p) := by
  rw [scanGo, if_pos h]

/-- The scan finds j from position q with counter n when j carries a
close bracket, the counter plus the balance of the bytes from q to j is
zero, and at every earlier close bracket the counter plus the running
balance is still positive (so the scan does not stop early). -/
theorem scanGo_spec (fuel : Nat) : ∀ (s : List Nat) (q n j : Nat),
    q ≤ j → j < s.length → j + 1 ≤ q + fuel →
    s.getD j 0 = 93 →
    (n : Int) + balsumK s q (j - q) = 0 →
    (∀ r, r < j → q ≤ r → s.getD r 0 = 93 → 1 ≤ (n : Int) + balsumK s q (r - q)) →
    scanGo fuel s q n = some j := by
  induction fuel with
  | zero => intro s q n j h1 _ h3 _ _ _; exfalso; omega
  | succ fuel ih =>
      intro s q n j h1 h2 h3 h4 h5 h6
      have hq : q < s.length := by omega
      rcases Nat.eq_or_lt_of_le h1 with heq | hlt
      · -- q = j : the scan is at the matching close with counter zero
        subst heq
        have hz : (n : Int) = 0 := by simpa [balsumK] using h5
        have hn : n = 0 := by exact_mod_cast hz
        rw [scanGo_succ fuel s q n hq, h4]
        norm_num [hn]
      · -- q < j : take one step
        have hsplit : j - q = (j - (q + 1)) + 1 := by omega
        have hstep : balsumK s q (j - q) =
            bal (s.getD q 0) + balsumK s (q + 1) (j - (q + 1)) := by
          rw [hsplit]; rfl
        by_cases h91 : s.getD q 0 = 91
        · -- open bracket: counter up
          have hbal : bal (s.getD q 0) = 1 := by rw [h91]; rfl
          have h5' : ((n + 1 : Nat) : Int) + balsumK s (q + 1) (j - (q + 1)) = 0 := by
            push_cast
            rw [hstep, hbal] at h5
            omega
          have h6' : ∀ r, r < j → q + 1 ≤ r → s.getD r 0 = 93 →
              1 ≤ ((n + 1 : Nat) : Int) + balsumK s (q + 1) (r - (q + 1)) := by
            intro r hr hqr hr93
            have := h6 r hr (by omega) hr93
            have hs2 : balsumK s q (r - q) =
                bal (s.getD q 0) + balsumK s (q + 1) (r - (q + 1)) := by
              have : r - q = (r - (q + 1)) + 1 := by omega
              rw [this]; rfl
            rw [hs2, hbal] at this
            push_cast
            omega
          rw [scanGo_succ fuel s q n hq, h91]
          norm_num
          exact ih s (q + 1) (n + 1) j (by omega) h2 (by omega) h4 h5' h6'
        · by_cases h93 : s.getD q 0 = 93
          · -- close bracket of a nested loop: counter is at least 1, down
            have hbal : bal (s.getD q 0) = -1 := by rw [h93]; rfl
            have hge : 1 ≤ (n : Int) := by
              have := h6 q hlt (Nat.le_refl _) h93
              simpa [balsumK] using this
            have hn1 : 1 ≤ n := by exact_mod_cast hge
            have hcast : ((n - 1 : Nat) : Int) = (n : Int) - 1 := by omega
            have h5' : ((n - 1 : Nat) : Int) + balsumK s (q + 1) (j - (q + 1)) = 0 := by
              rw [hcast]
              rw [hstep, hbal] at h5
              omega
            have h6' : ∀ r, r < j → q + 1 ≤ r → s.getD r 0 = 93 →
                1 ≤ ((n - 1 : Nat) : Int) + balsumK s (q + 1) (r - (q + 1)) := by
              intro r hr hqr hr93
              have := h6 r hr (by omega) hr93
              have hs2 : balsumK s q (r - q) =
                  bal (s.getD q 0) + balsumK s (q + 1) (r - (q + 1)) := by
                have : r - q = (r - (q + 1)) + 1 := by omega
                rw [this]; rfl
              rw [hs2, hbal] at this
              rw [hcast]
              omega
            have hne : n ≠ 0 := by omega
            rw [scanGo_succ fuel s q n hq, h93]
            norm_num [hne]
            exact ih s (q + 1) (n - 1) j (by omega) h2 (by omega) h4 h5' h6'
          · -- not a bracket: skip
            have hbal : bal (s.getD q 0) = 0 := by
              unfold bal
              rw [if_neg h91, if_neg h93]
            have h5' : (n : Int) + balsumK s (q + 1) (j - (q + 1)) = 0 := by
              rw [hstep, hbal] at h5
              omega
            have h6' : ∀ r, r < j → q + 1 ≤ r → s.getD r 0 = 93 →
                1 ≤ (n : Int) + balsumK s (q + 1) (r - (q + 1)) := by
              intro r hr hqr hr93
              have := h6 r hr (by omega) hr93
              have hs2 : balsumK s q (r - q) =
                  bal (s.getD q 0) + balsumK s (q + 1) (r - (q + 1)) := by
                have : r - q = (r - (q + 1)) + 1 := by omega
                rw [this]; rfl
              rw [hs2, hbal] at this
              omega
            rw [scanGo_succ fuel s q n hq, if_pos (And.intro h91 h93)]
            exact ih s (q + 1) n j (by omega) h2 (by omega) h4 h5' h6'

/-- A matching close is a close bracket byte. -/
theorem matchingClose_close (s : List Nat) (p j : Nat)
    (mc : matchingClose s p j) : s.getD j 0 = 93 := by
  obtain ⟨hpj, hsum, hmin⟩ := mc
  have hsplit : j - p = (j - p - 1) + 1 := by omega
  have hback := balsumK_succ_back s (j - p - 1) (p + 1)
  have hidx : p + 1 + (j - p - 1) = j := by omega
  rw [hidx] at hback
  rw [hsplit, hback] at hsum
  have hpre : 0 ≤ balsumK s (p + 1) (j - p - 1) := by
    rcases Nat.eq_or_lt_of_le hpj with heq | hlt
    · have : j - p - 1 = 0 := by omega
      rw [this]
      rfl
    · have := hmin (j - 1) (by omega) (by omega)
      have hq : j - 1 - p = j - p - 1 := by omega
      rw [hq] at this
      exact this
  have : bal (s.getD j 0) ≤ -1 := by omega
  exact bal_le_of_close _ this

/-- The scan started just after the open bracket at p, with counter 0,
stops exactly at the matching close. -/
theorem matchingClose_scanMatch (s : List Nat) (p j : Nat)
    (mc : matchingClose s p j) (hj : j < s.length) :
    scanMatch s (p + 1) 0 = some j := by
  have h93 := matchingClose_close s p j mc
  obtain ⟨hpj, hsum, hmin⟩ := mc
  have hsplit : j - p = (j - p - 1) + 1 := by omega
  have hback := balsumK_succ_back s (j - p - 1) (p + 1)
  have hidx : p + 1 + (j - p - 1) = j := by omega
  rw [hidx] at hback
  have hbalj : bal (s.getD j 0) = -1 := by rw [h93]; rfl
  have hzero : balsumK s (p + 1) (j - p - 1) = 0 := by
    rw [hsplit, hback, hbalj] at hsum
    omega
  apply scanGo_spec (s.length + 1) s (p + 1) 0 j (by omega) hj (by omega) h93
  · have : j - (p + 1) = j - p - 1 := by omega
    rw [this, hzero]
    norm_num
  · intro r hr hpr hr93
    have hmr := hmin r hr (by omega)
    have hsplitr : r - p = (r - (p + 1)) + 1 := by omega
    have hbackr := balsumK_succ_back s (r - (p + 1)) (p + 1)
    have hidxr : p + 1 + (r - (p + 1)) = r := by omega
    rw [hidxr] at hbackr
    have hbalr : bal (s.getD r 0) = -1 := by rw [hr93]; rfl
    rw [hsplitr, hbackr, hbalr] at hmr
    push_cast
    omega

theorem execInstr_62 (st : MState) (h : st.program.curElem = 62) :
    execInstr st = shiftDataPtr st 1 := by unfold execInstr; rw [h]

theorem execInstr_60 (st : MState) (h : st.program.curElem = 60) :
    execInstr st = shiftDataPtr st (-1) := by unfold execInstr; rw [h]

theorem execInstr_43 (st : MState) (h : st.program.curElem = 43) :
    execInstr st = addToCurrentByte st 1 := by unfold execInstr; rw [h]

theorem execInstr_45 (st : MState) (h : st.program.curElem = 45) :
    execInstr st = addToCurrentByte st (-1) := by unfold execInstr; rw [h]

theorem execInstr_46 (st : MState) (h : st.program.curElem = 46) :
    execInstr st = currentByteOut st := by unfold execInstr; rw [h]

theorem execInstr_44 (st : MState) (h : st.program.curElem = 44) :
    execInstr st = readByteAndStore st := by unfold execInstr; rw [h]

theorem execInstr_91 (st : MState) (h : st.program.curElem = 91) :
    execInstr st = leftBracket st := by unfold execInstr; rw [h]

theorem execInstr_93 (st : MState) (h : st.program.curElem = 93) :
    execInstr st = rightBracket st := by unfold execInstr; rw [h]

/-- A successful handler only ever appends zero fill to the program
storage: execution never writes an instruction byte into the program
tape. -/
theorem execInstr_extend (st st' : MState) (h : execInstr st = .ok st') :
    ∃ k, st'.program.storage = st.program.storage ++ List.replicate k 0 := by
  unfold execInstr at h
  split at h
  · unfold shiftDataPtr at h
    split at h
    · injection h with h; subst h; exact ⟨0, by simp⟩
    · simp at h
  · unfold shiftDataPtr at h
    split at h
    · injection h with h; subst h; exact ⟨0, by simp⟩
    · simp at h
  · unfold addToCurrentByte at h
    injection h with h; subst h; exact ⟨0, by simp⟩
  · unfold addToCurrentByte at h
    injection h with h; subst h; exact ⟨0, by simp⟩
  · unfold currentByteOut at h
    injection h with h; subst h; exact ⟨0, by simp⟩
  · unfold readByteAndStore at h
    split at h
    · injection h with h; subst h; exact ⟨0, by simp⟩
    · injection h with h; subst h; exact ⟨0, by simp⟩
  · unfold leftBracket at h
    split at h
    · injection h with h; subst h; exact ⟨0, by simp⟩
    · split at h
      · injection h with h; subst h
        simpa using growStorage_append st.program.storage _
      · simp at h
  · unfold rightBracket at h
    split at h
    · simp at h
    · split at h
      · injection h with h; subst h; exact ⟨0, by simp⟩
      · split at h
        · rename_i p hp
          injection h with h; subst h
          unfold Tape.setPtr at hp
          rw [if_neg (by simp)] at hp
          injection hp with hp; subst hp
          simpa using growStorage_append st.program.storage _
        · simp at h
  · simp at h

theorem goodProg_append_zeros (s : List Nat) (k : Nat) (h : goodProg s) :
    goodProg (s ++ List.replicate k 0) := by
  intro b hb
  rcases List.mem_append.mp hb with hm | hm
  · exact h b hm
  · exact Or.inr (List.eq_of_mem_replicate hm)

theorem goodProg_grow (s : List Nat) (n : Nat) (h : goodProg s) :
    goodProg (growStorage s n) := by
  obtain ⟨k, hk⟩ := growStorage_append s n
  rw [hk]
  exact goodProg_append_zeros s k h

/-- Everything load_program stores is an instruction byte or zero fill. -/
theorem loadProgram_good (st : MState) (src : List Char) :
    goodProg ((loadProgram st src).program.storage) := by
  unfold loadProgram Tape.load
  apply goodProg_grow
  intro b hb
  simp only [List.mem_map, List.mem_filter] at hb
  obtain ⟨c, ⟨_, hc⟩, rfl⟩ := hb
  left
  have hc' : c ∈ bfCmdChars := by simpa using hc
  fin_cases hc' <;> decide

/-- A nonzero byte under the program cursor of a good program tape is an
instruction byte: reads past the storage are the zero fill. -/
theorem byte_cases (st : MState) (hgood : goodProg st.program.storage)
    (hnz : st.program.curElem ≠ 0) : st.program.curElem ∈ cmdBytes := by
  by_cases hlen : st.program.ptr < st.program.storage.length
  · have hmem : st.program.curElem ∈ st.program.storage := by
      unfold Tape.curElem
      rw [List.getD_eq_getElem _ _ hlen]
      exact List.getElem_mem hlen
    rcases hgood _ hmem with h | h
    · exact h
    · exact absurd h hnz
  · exfalso
    apply hnz
    unfold Tape.curElem
    exact List.getD_eq_default _ _ (by omega)

theorem shiftDataPtr_no_key (st : MState) (n : Int) :
    shiftDataPtr st n ≠ .err .keyError := by
  unfold shiftDataPtr
  split
  · simp
  · rename_i e he
    unfold Tape.setPtr at he
    split at he
    · injection he with he; subst he; simp
    · simp at he

theorem rightBracket_no_key (st : MState) :
    rightBracket st ≠ .err .keyError := by
  unfold rightBracket
  split
  · simp
  · split
    · simp
    · split
      · simp
      · rename_i e he
        unfold Tape.setPtr at he
        split at he
        · injection he with he; subst he; simp
        · simp at he

theorem leftBracket_no_key (st : MState) :
    leftBracket st ≠ .err .keyError := by
  unfold leftBracket
  split
  · simp
  · split <;> simp

/-- With a good program tape and a nonzero byte under the cursor, the
dispatch dict lookup of line 131 always succeeds: no handler result is a
KeyError. -/
theorem execInstr_no_key (st : MState) (hgood : goodProg st.program.storage)
    (hnz : st.program.curElem ≠ 0) : execInstr st ≠ .err .keyError := by
  have hmem := byte_cases st hgood hnz
  simp only [cmdBytes, List.mem_cons, List.not_mem_nil, or_false] at hmem
  rcases hmem with h|h|h|h|h|h|h|h
  · rw [execInstr_62 st h]; exact shiftDataPtr_no_key st 1
  · rw [execInstr_60 st h]; exact shiftDataPtr_no_key st (-1)
  · rw [execInstr_43 st h]; simp [addToCurrentByte]
  · rw [execInstr_45 st h]; simp [addToCurrentByte]
  · rw [execInstr_46 st h]; simp [currentByteOut]
  · rw [execInstr_44 st h]; unfold readByteAndStore; split <;> simp
  · rw [execInstr_91 st h]; exact leftBracket_no_key st
  · rw [execInstr_93 st h]; exact rightBracket_no_key st

/-- The dispatch loop preserves goodness of the program tape and never
reaches the KeyError branch of the handler lookup. -/
theorem run_no_key (fuel : Nat) : ∀ st : MState, goodProg st.program.storage →
    run fuel st ≠ .err .keyError := by
  induction fuel with
  | zero => intro st _; simp [run]
  | succ fuel ih =>
      intro st hgood
      rw [run]
      split
      · simp
      · rename_i hnz
        cases hE : execInstr st with
        | ok st' =>
            obtain ⟨k, hk⟩ := execInstr_extend st st' hE
            apply ih
            unfold incProg
            apply goodProg_grow
            rw [hk]
            exact goodProg_append_zeros _ _ hgood
        | err e =>
            have := execInstr_no_key st hgood hnz
            rw [hE] at this
            simp
            intro heq
            subst heq
            exact this rfl
        | diverge => simp

/-- One plus or minus moves the cell by one, mod 256. -/
theorem addToCur_curElem (t : Tape) (n : Int) (h : tapeInv t) :
    (addToCur t n).curElem = (((t.curElem : Int) + n) % 256).toNat :=
  setCurElem_curElem t _ h

/-- A run of plus and minus instructions on one cell stores the start
value plus the net increment, mod 256. -/
theorem applyPM_curElem (ops : List Bool) : ∀ (t : Tape), tapeInv t → t.curElem < 256 →
    (applyPM t ops).curElem =
      (((t.curElem : Int) + ops.count true - ops.count false) % 256).toNat := by
  induction ops with
  | nil =>
      intro t hinv hlt
      simp only [applyPM, List.foldl_nil, List.count_nil]
      omega
  | cons op ops ih =>
      intro t hinv hlt
      have hstep : applyPM t (op :: ops) = applyPM (addToCur t (if op then 1 else -1)) ops := rfl
      have hinv' : tapeInv (addToCur t (if op then 1 else -1)) := setCurElem_inv t _ hinv
      have hlt' : (addToCur t (if op then 1 else -1)).curElem < 256 := setCurElem_lt t _ hinv
      rw [hstep, ih _ hinv' hlt', addToCur_curElem t _ hinv]
      cases op <;> simp [List.count_cons] <;> omega

/-- C1: the claim says that an executed open bracket with no matching
close makes the run fail with a SyntaxError.  The code does not: the Tape
iterator of lines 15-19 never ends (the tape grows with zero fill on
every step), so the scan loop of lines 95-109 runs forever and the raise
on line 111 is dead code.  First part: on the one-instruction program of
a single open bracket, the dispatch loop diverges for every fuel.
Second part: the faithful iterator scan, started where line 94 leaves it
(cursor 1 of the grown storage of that program), returns within no fuel
bound at all. -/
theorem c1_unmatched_open_scan_never_raises :
    (∀ fuel, run (fuel + 1) (mkMachine "[".toList []) = .diverge) ∧
    (∀ fuel, scanFuel fuel ⟨growStorage [91] 1, 1⟩ 0 = none) := by
  constructor
  · intro fuel
    rw [run]
    rw [if_neg (by decide)]
    rw [show execInstr (mkMachine "[".toList []) = .diverge from by decide]
  · intro fuel
    apply scanFuel_none
    intro i hi
    have hi' : 1 ≤ i := hi
    show (growStorage [91] 1).getD i 0 = 0
    rw [growStorage_getD]
    exact List.getD_eq_default _ _ (by simpa using hi')

/-- C2 counterexample: the claim says that after a loop-end with a
nonzero cell the matching open bracket is the next instruction executed.
In the state below the loop-end at position 4 runs with stack top 2 (the
open bracket position) and cell 1; the handler sets the cursor to 2 and
the dispatch loop then advances it to 3, so the next dispatched byte is
the minus at position 3, not the open bracket at position 2. -/
theorem c2_cex_body_executes_next :
    dispatchStep ⟨⟨[1], 0⟩, ⟨[43, 43, 91, 45, 93], 4⟩, [2], [], []⟩ =
      .ok ⟨⟨[1], 0⟩, ⟨[43, 43, 91, 45, 93], 3⟩, [2], [], []⟩ ∧
    List.getD [43, 43, 91, 45, 93] 3 0 = 45 ∧ (3 : Nat) ≠ 2 ∧
    List.getD [43, 43, 91, 45, 93] 3 0 ≠ 91 := by
  refine ⟨by decide, by decide, by decide, by decide⟩

/-- C2 (amended): when a loop-end executes with a non-empty stack and a
nonzero cell, the cursor is set to the stack top t without popping, and
after the post-increment of line 132 the next instruction executed is
the one at t + 1, the first instruction of the loop body; the stack,
memory and output are unchanged, so the stack top still holds the
position of the matching open bracket. -/
theorem c2_loop_jump (st : MState) (t : Nat) (rest : List Nat)
    (hb : st.program.curElem = 93) (hstk : st.bracketStack = t :: rest)
    (hnz : st.memory.curElem ≠ 0) :
    stepView (dispatchStep st) = some (t + 1, t :: rest, st.memory, st.output) := by
  unfold dispatchStep
  rw [execInstr_93 st hb]
  unfold rightBracket
  rw [hstk]
  have hnonneg : ¬((t : Int) < 0) := by simp
  simp [hnz, Tape.setPtr, hnonneg, incProg, stepView, hstk]

/-- C2 witness: a loop-end at position 1 with stack top 0 and cell 1
hands control to position 1 = 0 + 1 with the stack kept. -/
theorem c2_loop_jump_witness :
    stepView (dispatchStep ⟨⟨[1], 0⟩, ⟨[91, 93], 1⟩, [0], [], []⟩) =
      some (1, [0], ⟨[1], 0⟩, []) :=
  c2_loop_jump ⟨⟨[1], 0⟩, ⟨[91, 93], 1⟩, [0], [], []⟩ 0 [] (by decide) rfl (by decide)

/-- C3: a loop-start executed with cell 0 and a matching close at j
(nesting respected, per matchingClose) skips the whole body in this one
handler step: memory, stack and output are untouched and the next
dispatched position is j + 1, just after the matching close.  The
handler leaves the cursor on j and the post-increment of line 132 lands
one past it. -/
theorem c3_zero_loop_skips (st : MState) (j : Nat)
    (hb : st.program.curElem = 91) (hz : st.memory.curElem = 0)
    (hj : j < st.program.storage.length)
    (mc : matchingClose st.program.storage st.program.ptr j) :
    stepView (dispatchStep st) = some (j + 1, st.bracketStack, st.memory, st.output) := by
  unfold dispatchStep
  rw [execInstr_91 st hb]
  unfold leftBracket
  rw [if_neg (by simp [hz])]
  rw [matchingClose_scanMatch _ _ _ mc hj]
  simp [incProg, stepView]

/-- C3 witness: a nested loop body.  The open bracket at 0 of the
program with bytes open open close close matches the close at 3, not
the inner close at 2, and execution resumes at 4. -/
theorem c3_zero_loop_skips_witness :
    stepView (dispatchStep ⟨⟨[0], 0⟩, ⟨[91, 91, 93, 93], 0⟩, [], [], []⟩) =
      some (4, [], ⟨[0], 0⟩, []) :=
  c3_zero_loop_skips ⟨⟨[0], 0⟩, ⟨[91, 91, 93, 93], 0⟩, [], [], []⟩ 3
    (by decide) (by decide) (by decide) (by decide)

/-- C4 counterexample: the claim says a freshly loaded Tape reads 0 at
every cursor position.  Loading the one-byte data 1 and reading at
cursor 0 returns 1, the loaded byte, not 0. -/
theorem c4_cex_loaded_data_read :
    curElemAfter (((Tape.init 4096).load [1]).setPtr 0) = some 1 ∧ (1 : Nat) ≠ 0 :=
  ⟨by decide, by decide⟩

/-- C4 (amended): on a freshly constructed Tape, moving the cursor to
any non-negative n and reading gives 0.  On a freshly loaded Tape the
read gives 0 exactly for cursors at or past the loaded data (the
zero-fill region); inside the data it gives the loaded byte. -/
theorem c4_cursor_then_read (len n : Nat) (t : Tape) (data : List Nat) :
    curElemAfter ((Tape.init len).setPtr (n : Int)) = some 0 ∧
    (data.length ≤ n → curElemAfter ((t.load data).setPtr (n : Int)) = some 0) ∧
    (n < data.length → curElemAfter ((t.load data).setPtr (n : Int)) = some (data.getD n 0)) := by
  have hsetp : ∀ tape : Tape, tape.setPtr (n : Int) = .ok ⟨growStorage tape.storage n, n⟩ := by
    intro tape
    unfold Tape.setPtr
    rw [if_neg (by simp)]
    simp
  refine ⟨?_, ?_, ?_⟩
  · rw [hsetp]
    show some ((growStorage (List.replicate len 0) n).getD n 0) = some 0
    rw [growStorage_getD, getD_replicate_zero]
  · intro h
    rw [hsetp]
    show some ((growStorage (growStorage data 0) n).getD n 0) = some 0
    rw [growStorage_getD, growStorage_getD, List.getD_eq_default _ _ h]
  · intro _
    rw [hsetp]
    show some ((growStorage (growStorage data 0) n).getD n 0) = some (data.getD n 0)
    rw [growStorage_getD, growStorage_getD]

/-- C4 witness: a fresh Tape of two bytes read at 5 gives 0; a Tape
loaded with the single byte 7 gives 0 at 5 (past the data) and 7 at 0
(inside the data). -/
theorem c4_cursor_then_read_witness :
    curElemAfter ((Tape.init 2).setPtr ((5 : Nat) : Int)) = some 0 ∧
    curElemAfter ((Tape.mk [] 0 |>.load [7]).setPtr ((5 : Nat) : Int)) = some 0 ∧
    curElemAfter ((Tape.mk [] 0 |>.load [7]).setPtr ((0 : Nat) : Int)) = some 7 :=
  ⟨(c4_cursor_then_read 2 5 ⟨[], 0⟩ [7]).1,
   (c4_cursor_then_read 2 5 ⟨[], 0⟩ [7]).2.1 (by decide),
   (c4_cursor_then_read 2 0 ⟨[], 0⟩ [7]).2.2 (by decide)⟩

/-- C5: the count-down program (read, loop of write and decrement) run
on a fresh machine with the single input byte 3 halts and writes exactly
the three bytes 3, 2, 1 in that order. -/
theorem c5_count_down_outputs :
    runOutput (run 20 (mkMachine ",[.-]".toList [3])) = some [3, 2, 1] := by decide

/-- C6: the cur_elem setter accepts any integer and stores it mod 256,
and a sequence of plus and minus instructions on one cell stores the
start byte plus pluses minus minuses, mod 256.  The hypotheses are the
Tape invariants: cursor inside storage and the cell a byte. -/
theorem c6_byte_wrap (t : Tape) (hinv : tapeInv t) (hlt : t.curElem < 256) :
    (∀ v : Int, (t.setCurElem v).curElem = (v % 256).toNat) ∧
    (∀ ops : List Bool, (applyPM t ops).curElem =
      (((t.curElem : Int) + ops.count true - ops.count false) % 256).toNat) :=
  ⟨fun v => setCurElem_curElem t v hinv, fun ops => applyPM_curElem ops t hinv hlt⟩

/-- C6 witness: a cell holding 255: storing 300 leaves 300 mod 256 = 44,
and one plus instruction wraps 255 around to (255 + 1) mod 256 = 0. -/
theorem c6_byte_wrap_witness :
    ((Tape.mk [255] 0).setCurElem 300).curElem = ((300 : Int) % 256).toNat ∧
    (applyPM ⟨[255], 0⟩ [true]).curElem =
      ((((Tape.mk [255] 0).curElem : Int) +
        [true].count true - [true].count false) % 256).toNat :=
  ⟨(c6_byte_wrap ⟨[255], 0⟩ (by decide) (by decide)).1 300,
   (c6_byte_wrap ⟨[255], 0⟩ (by decide) (by decide)).2 [true]⟩

/-- C7: the cursor setter rejects every negative target with the
IndexError of line 29 and accepts every non-negative one, landing on a
non-negative position; in particular the shift-left instruction with the
data cursor at 0 raises that error. -/
theorem c7_no_negative_cursor :
    (∀ (t : Tape) (n : Int), n < 0 → t.setPtr n = .error .indexError) ∧
    (∀ (t : Tape) (n : Int), 0 ≤ n →
      t.setPtr n = .ok ⟨growStorage t.storage n.toNat, n.toNat⟩) ∧
    (∀ st : MState, st.program.curElem = 60 → st.memory.ptr = 0 →
      execInstr st = .err .indexError) := by
  refine ⟨?_, ?_, ?_⟩
  · intro t n h
    unfold Tape.setPtr
    rw [if_pos h]
  · intro t n h
    unfold Tape.setPtr
    rw [if_neg (by omega)]
  · intro st hb hp
    rw [execInstr_60 st hb]
    unfold shiftDataPtr
    have hval : ((st.memory.ptr : Int) + (-1)) = -1 := by rw [hp]; norm_num
    rw [hval]
    unfold Tape.setPtr
    rw [if_pos (by norm_num)]

/-- C7 witness: a concrete negative target and a shift-left at cursor
0, both ending in the IndexError. -/
theorem c7_no_negative_cursor_witness :
    (Tape.mk [] 0).setPtr (-3) = .error .indexError ∧
    execInstr ⟨⟨[0], 0⟩, ⟨[60], 0⟩, [], [], []⟩ = .err .indexError :=
  ⟨c7_no_negative_cursor.1 ⟨[], 0⟩ (-3) (by norm_num),
   c7_no_negative_cursor.2.2 ⟨⟨[0], 0⟩, ⟨[60], 0⟩, [], [], []⟩ (by decide) rfl⟩

/-- C8 counterexample: the claim states the message of the unmatched
close error as lowercase unmatched.  The message the code raises on line
115 is capitalised: Unmatched with a capital U. -/
theorem c8_cex_message_capitalised :
    execInstr (mkMachine "]".toList []) = .err (.syntaxError "Unmatched ]") ∧
    "Unmatched ]" ≠ "unmatched ]" :=
  ⟨by decide, by decide⟩

/-- C8 (amended): a loop-end executed with an empty loop stack fails
with the syntax error whose message is Unmatched close bracket with a
capital U (line 115), and a loop-end with a non-empty stack never
raises any error. -/
theorem c8_unmatched_close (st : MState) (hb : st.program.curElem = 93) :
    (st.bracketStack = [] → execInstr st = .err (.syntaxError "Unmatched ]")) ∧
    (st.bracketStack ≠ [] → ∀ e, execInstr st ≠ .err e) := by
  constructor
  · intro hstk
    rw [execInstr_93 st hb]
    unfold rightBracket
    rw [hstk]
  · intro hstk e
    rw [execInstr_93 st hb]
    unfold rightBracket
    rcases hs : st.bracketStack with _ | ⟨t, rest⟩
    · exact absurd hs hstk
    · have hnonneg : ¬((t : Int) < 0) := by simp
      by_cases hz : st.memory.curElem = 0
      · simp [hz]
      · simp [hz, Tape.setPtr, hnonneg]

/-- C8 witness: running the one-instruction close-bracket program raises
the error, and a loop-end with stack top 0 raises nothing. -/
theorem c8_unmatched_close_witness :
    execInstr (mkMachine "]".toList []) = .err (.syntaxError "Unmatched ]") ∧
    execInstr ⟨⟨[1], 0⟩, ⟨[93], 0⟩, [0], [], []⟩ ≠ .err .keyError :=
  ⟨(c8_unmatched_close (mkMachine "]".toList []) (by decide)).1 rfl,
   (c8_unmatched_close ⟨⟨[1], 0⟩, ⟨[93], 0⟩, [0], [], []⟩ (by decide)).2 (by decide) .keyError⟩

/-- C9: load_program keeps exactly the source characters that are among
the eight instruction symbols, in order: loading any source equals
loading its filtered form, the program storage holds exactly the
filtered bytes followed by zero fill, and running either machine gives
the same result for every fuel. -/
theorem c9_filter_load (st : MState) (src : List Char) :
    loadProgram st src = loadProgram st (src.filter (· ∈ bfCmdChars)) ∧
    (∃ k, (loadProgram st src).program.storage =
      ((src.filter (· ∈ bfCmdChars)).map Char.toNat) ++ List.replicate k 0) ∧
    (∀ fuel, run fuel (loadProgram st src) =
      run fuel (loadProgram st (src.filter (· ∈ bfCmdChars)))) := by
  have hfilter : (src.filter (· ∈ bfCmdChars)).filter (· ∈ bfCmdChars) =
      src.filter (· ∈ bfCmdChars) := by
    rw [List.filter_filter]
    simp
  have heq : loadProgram st src = loadProgram st (src.filter (· ∈ bfCmdChars)) := by
    unfold loadProgram
    rw [hfilter]
  refine ⟨heq, ?_, fun fuel => by rw [heq]⟩
  unfold loadProgram Tape.load
  exact growStorage_append _ 0

/-- C10: after loading, every program tape byte is an instruction byte
or zero; a successful handler step only appends zero fill to the program
storage (execution never writes an instruction byte); and so the
dispatch lookup never fails: no run of a loaded machine ever returns the
KeyError of the handler dict. -/
theorem c10_program_bytes_safe :
    (∀ (src : List Char) (input : List Nat),
      goodProg ((mkMachine src input).program.storage)) ∧
    (∀ st st', execInstr st = .ok st' →
      ∃ k, st'.program.storage = st.program.storage ++ List.replicate k 0) ∧
    (∀ (src : List Char) (input : List Nat) (fuel : Nat),
      run fuel (mkMachine src input) ≠ .err .keyError) := by
  refine ⟨?_, execInstr_extend, ?_⟩
  · intro src input
    exact loadProgram_good (initMachine input) src
  · intro src input fuel
    exact run_no_key fuel _ (loadProgram_good (initMachine input) src)

/-- C10 witness: a loaded machine with a comment character dropped at
load has a good program tape and runs with no KeyError. -/
theorem c10_program_bytes_safe_witness :
    goodProg ((mkMachine "+[".toList []).program.storage) ∧
    run 3 (mkMachine "+[".toList []) ≠ .err .keyError :=
  ⟨c10_program_bytes_safe.1 "+[".toList [],
   c10_program_bytes_safe.2.2 "+[".toList [] 3⟩

end Brainfuck
